import Mathlib

/-!
# Second-order filter: `SecondOrderSystem`

A shallow embedding of `src/SecondOrderSystem.h` / `src/SecondOrderSystem.cpp`.

* The C++ type `double` is read as a scalar type `α` carrying field arithmetic
  (exact arithmetic: rounding, overflow, infinities and NaN are not modelled;
  a quotient by zero takes the field convention `x / 0 = 0`).
* The two `<cmath>` items used by the code, `std::sqrt` and `M_PI`, are passed
  to the embedding as `sqrt : α → α` and `pi : α`.  Over `ℝ` they are
  `Real.sqrt` and `Real.pi`; `std::pow (x, 2)` is `x ^ 2`.
* A member function that mutates `*this` becomes a function from the state
  before the call to the state after it; `update`, which also returns a
  value, yields the pair (returned value, state after the call).
* Where a property is decided by rounding, the same functions are read a second
  time over IEEE 754 binary64 (`recalculateCoefficients64`, `construct64`,
  `update64`, `simulate64`): a finite `double` is the rational it denotes, every
  operation returns the exact result rounded to nearest, ties to even, and
  `none` stands for an infinite or NaN result.
-/

/-- The data members of `class SecondOrderSystem` (SecondOrderSystem.h, lines 17-31). -/
structure SecondOrderSystem (α : Type) where
  m_f : α
  m_zeta : α
  m_r : α
  m_position : α
  m_velocity : α
  m_prev_input : α
  m_k1 : α
  m_k2 : α
  m_k3 : α
  m_T_crit : α

namespace SecondOrderSystem

variable {α : Type} [Field α]

/-- `SecondOrderSystem::recalculateCoefficients` (SecondOrderSystem.cpp, lines 11-18). -/
def recalculateCoefficients (sqrt : α → α) (pi : α) (s : SecondOrderSystem α) :
    SecondOrderSystem α :=
  let s1 := { s with m_k2 := 1 / (2 * pi * s.m_f) ^ 2 }
  let s2 := { s1 with m_k1 := 2 * s1.m_zeta * sqrt s1.m_k2 }
  let s3 := { s2 with m_k3 := (s2.m_r * s2.m_k1) / 2 }
  { s3 with m_T_crit := sqrt (4 * s3.m_k2 + s3.m_k1 * s3.m_k1) - s3.m_k1 }

/-- The constructor (SecondOrderSystem.cpp, lines 4-9; default argument from
SecondOrderSystem.h, line 5).  The member initialiser list sets the three
parameters and the running state; the four coefficient members are not
initialised there (they are written as `0` here) and are all assigned by
`recalculateCoefficients` in the constructor body. -/
def construct (sqrt : α → α) (pi : α) (f zeta r : α) (initial_position : α := 0) :
    SecondOrderSystem α :=
  recalculateCoefficients sqrt pi
    { m_f := f, m_zeta := zeta, m_r := r,
      m_position := initial_position, m_velocity := 0,
      m_prev_input := initial_position,
      m_k1 := 0, m_k2 := 0, m_k3 := 0, m_T_crit := 0 }

/-- `SecondOrderSystem::update` (SecondOrderSystem.cpp, lines 20-41): the
returned value paired with the state after the call. -/
def update (target_position delta_time : α) (s : SecondOrderSystem α) :
    α × SecondOrderSystem α :=
  let input_velocity := (target_position - s.m_prev_input) / delta_time
  let new_position := s.m_position + s.m_velocity * delta_time
  let acceleration :=
    (target_position + s.m_k3 * input_velocity - new_position - s.m_k1 * s.m_velocity) / s.m_k2
  let new_velocity := s.m_velocity + acceleration * delta_time
  let s1 := { s with m_position := new_position, m_velocity := new_velocity,
                     m_prev_input := target_position }
  (s1.m_position, s1)

/-- `SecondOrderSystem::setParameters` (SecondOrderSystem.cpp, lines 44-49). -/
def setParameters (sqrt : α → α) (pi : α) (f zeta r : α) (s : SecondOrderSystem α) :
    SecondOrderSystem α :=
  recalculateCoefficients sqrt pi { s with m_f := f, m_zeta := zeta, m_r := r }

/-- `SecondOrderSystem::setNaturalFrequency` (SecondOrderSystem.cpp, lines 51-54). -/
def setNaturalFrequency (sqrt : α → α) (pi : α) (f : α) (s : SecondOrderSystem α) :
    SecondOrderSystem α :=
  recalculateCoefficients sqrt pi { s with m_f := f }

/-- `SecondOrderSystem::setDamping` (SecondOrderSystem.cpp, lines 56-59). -/
def setDamping (sqrt : α → α) (pi : α) (zeta : α) (s : SecondOrderSystem α) :
    SecondOrderSystem α :=
  recalculateCoefficients sqrt pi { s with m_zeta := zeta }

/-- `SecondOrderSystem::setResponse` (SecondOrderSystem.cpp, lines 61-64). -/
def setResponse (sqrt : α → α) (pi : α) (r : α) (s : SecondOrderSystem α) :
    SecondOrderSystem α :=
  recalculateCoefficients sqrt pi { s with m_r := r }

/-- One call of a public member function on an existing filter, with its arguments. -/
inductive Call (α : Type) where
  | update (target_position delta_time : α)
  | setParameters (f zeta r : α)
  | setNaturalFrequency (f : α)
  | setDamping (zeta : α)
  | setResponse (r : α)

/-- The state after one public call (the value returned by `update` is dropped). -/
def Call.exec (sqrt : α → α) (pi : α) : Call α → SecondOrderSystem α → SecondOrderSystem α
  | Call.update t dt, s => (SecondOrderSystem.update t dt s).2
  | Call.setParameters f zeta r, s => SecondOrderSystem.setParameters sqrt pi f zeta r s
  | Call.setNaturalFrequency f, s => SecondOrderSystem.setNaturalFrequency sqrt pi f s
  | Call.setDamping zeta, s => SecondOrderSystem.setDamping sqrt pi zeta s
  | Call.setResponse r, s => SecondOrderSystem.setResponse sqrt pi r s

/-- The state after a sequence of public calls, executed first to last. -/
def execCalls (sqrt : α → α) (pi : α) :
    List (Call α) → SecondOrderSystem α → SecondOrderSystem α
  | [], s => s
  | c :: cs, s => execCalls sqrt pi cs (c.exec sqrt pi s)

/-- A driving loop in the shape of the `for` loop of main.cpp (lines 32-35):
`update` is called once per (target, deltaTime) pair, in order, on the same
filter; the result is the list of returned positions and the final state. -/
def simulate : List (α × α) → SecondOrderSystem α → List α × SecondOrderSystem α
  | [], s => ([], s)
  | (t, dt) :: rest, s =>
    let r := update t dt s
    let rs := simulate rest r.2
    (r.1 :: rs.1, rs.2)

/-- The coefficient-derivation formulas hold between the stored coefficients
and the stored tuning parameters of `s`. -/
def Consistent (sqrt : α → α) (pi : α) (s : SecondOrderSystem α) : Prop :=
  s.m_k2 = 1 / (2 * pi * s.m_f) ^ 2 ∧
  s.m_k1 = 2 * s.m_zeta * sqrt s.m_k2 ∧
  s.m_k3 = (s.m_r * s.m_k1) / 2 ∧
  s.m_T_crit = sqrt (4 * s.m_k2 + s.m_k1 ^ 2) - s.m_k1

/-- Invariant of the convergence scenario under `update 5 (1 / 60)`: the
coefficients are those of `f = 2`, `zeta = 1`, `r = 0`, the velocity is
non-negative and at most `4 * π` times the remaining distance to the target. -/
def ConvInv (s : SecondOrderSystem ℝ) : Prop :=
  s.m_k1 = 1 / (2 * Real.pi) ∧ s.m_k2 = 1 / (4 * Real.pi) ^ 2 ∧ s.m_k3 = 0 ∧
  0 ≤ s.m_velocity ∧ s.m_velocity ≤ 4 * Real.pi * (5 - s.m_position)

/-- The local `input_velocity` of `update` (SecondOrderSystem.cpp, line 22):
the finite-difference estimate of the target velocity seen by a call
`update target_position delta_time` on the state `s`. -/
def inputVelocity (target_position delta_time : α) (s : SecondOrderSystem α) : α :=
  (target_position - s.m_prev_input) / delta_time

/-- The state `s` displaced by `c`: position and previousTarget are moved by
`c`, every other member is kept. -/
def translate (c : α) (s : SecondOrderSystem α) : SecondOrderSystem α :=
  { s with m_position := s.m_position + c, m_prev_input := s.m_prev_input + c }

namespace Binary64

/-- Evaluation of a natural number before it is used: `forceNat n k` is `k n`
(see `forceNat_eq`), written as a case distinction so that reduction computes
`n` once instead of copying the expression that defines it. -/
def forceNat {β : Type} (n : ℕ) (k : ℕ → β) : β :=
  match n with
  | 0 => k 0
  | m + 1 => k (m + 1)

/-- Evaluation of an integer before it is used: `forceInt i k` is `k i`. -/
def forceInt {β : Type} (i : ℤ) (k : ℤ → β) : β :=
  match i with
  | Int.ofNat a => forceNat a fun a1 => k (Int.ofNat a1)
  | Int.negSucc a => forceNat a fun a1 => k (Int.negSucc a1)

/-- Evaluation of a boolean before it is used: `forceBool b k` is `k b`. -/
def forceBool {β : Type} (b : Bool) (k : Bool → β) : β :=
  match b with
  | true => k true
  | false => k false

/-- Auxiliary for `log2`: binary search for the exponent, highest bit first. -/
def log2Aux (n : ℕ) : ℕ → ℕ → ℕ
  | 0, acc => acc
  | i + 1, acc => if 2 ^ (acc + 2 ^ i) ≤ n then log2Aux n i (acc + 2 ^ i) else log2Aux n i acc

/-- The greatest `e` with `2 ^ e ≤ n`, for `0 < n < 2 ^ 8192`. -/
def log2 (n : ℕ) : ℕ := log2Aux n 13 0

/-- The integer `e` with `2 ^ e ≤ n / d < 2 ^ (e + 1)`, for positive `n`, `d`. -/
def floorLog2 (n d : ℕ) : ℤ :=
  forceInt ((log2 n : ℤ) - (log2 d : ℤ)) fun e0 =>
    if 0 ≤ e0 then (if d * 2 ^ e0.toNat ≤ n then e0 else e0 - 1)
    else (if d ≤ n * 2 ^ (-e0).toNat then e0 else e0 - 1)

/-- Rounding of an exact result `x = ± n / d` to binary64: the nearest multiple
of the quantum `2 ^ (-sh)` (53 significant bits, at least `2 ^ -1074`), ties to
the even multiple; `N / D` is `|x| * 2 ^ sh`, `q` its integer part, `q1` the
rounded multiple.  A rounded magnitude of `2 ^ 1024` or more is an overflow. -/
@[noinline]
def roundNearestEven (x : ℚ) : Option ℚ :=
  forceBool (decide (x < 0)) fun neg =>
  forceNat x.num.natAbs fun n =>
  forceNat x.den fun d =>
  if n = 0 then some 0 else
  forceInt (min (52 - floorLog2 n d) 1074) fun sh =>
  let N := if 0 ≤ sh then n * 2 ^ sh.toNat else n
  let D := if 0 ≤ sh then d else d * 2 ^ (-sh).toNat
  forceNat (N / D) fun q =>
  forceNat (if D < 2 * (N % D) ∨ (2 * (N % D) = D ∧ q % 2 = 1) then q + 1 else q) fun q1 =>
  let y : ℚ := if 0 ≤ sh then (q1 : ℚ) / ((2 ^ sh.toNat : ℕ) : ℚ)
    else ((q1 * 2 ^ (-sh).toNat : ℕ) : ℚ)
  if (if 0 ≤ sh then 2 ^ 1024 * 2 ^ sh.toNat ≤ q1 else 2 ^ 1024 ≤ q1 * 2 ^ (-sh).toNat)
  then none
  else if neg then some (-y) else some y

/-- The binary64 sum `a + b`. -/
@[noinline]
def add (a b : ℚ) : Option ℚ := roundNearestEven (a + b)

/-- The binary64 product `a * b`. -/
@[noinline]
def mul (a b : ℚ) : Option ℚ := roundNearestEven (a * b)

/-- The binary64 quotient `a / b`; a zero divisor gives `±inf` or NaN. -/
@[noinline]
def div (a b : ℚ) : Option ℚ := if b = 0 then none else roundNearestEven (a / b)

/-- Newton iteration for the integer square root, started above the root. -/
def isqrtIter (n : ℕ) : ℕ → ℕ → ℕ
  | 0, guess => guess
  | fuel + 1, guess =>
    forceNat ((guess + n / guess) / 2) fun next =>
      if next < guess then isqrtIter n fuel next else guess

/-- The integer square root: the greatest `r` with `r * r ≤ n`. -/
def isqrt (n : ℕ) : ℕ :=
  if n = 0 then 0 else isqrtIter n (log2 n + 8) (2 ^ (log2 n / 2 + 1))

/-- The binary64 `std::sqrt x`: the exact root rounded once.  The root of
`x * 4 ^ k` is taken to more than 64 bits (`r`), and a sticky half keeps an
inexact root strictly between `r` and `r + 1` before the rounding. -/
@[noinline]
def sqrt (x : ℚ) : Option ℚ :=
  if x < 0 then none else if x = 0 then some 0 else
    forceNat x.num.natAbs fun n =>
    forceNat x.den fun d =>
    forceInt (66 - floorLog2 n d / 2) fun k =>
    let N := if 0 ≤ k then n * 4 ^ k.toNat else n
    let D := if 0 ≤ k then d else d * 4 ^ (-k).toNat
    forceNat (N / D) fun m =>
    forceNat (isqrt m) fun r =>
    forceBool (decide (N % D ≠ 0) || decide (r * r ≠ m)) fun sticky =>
    let y : ℚ := (r : ℚ) + (if sticky then 1 / 2 else 0)
    roundNearestEven
      (if 0 ≤ k then y / ((2 ^ k.toNat : ℕ) : ℚ) else y * ((2 ^ (-k).toNat : ℕ) : ℚ))

end Binary64

/-- The greatest entry of a list (`none` for the empty list). -/
def listMax : List ℚ → Option ℚ
  | [] => none
  | a :: rest => some (rest.foldl max a)

theorem consistent_recalculateCoefficients (sqrt : α → α) (pi : α)
    (s : SecondOrderSystem α) : Consistent sqrt pi (recalculateCoefficients sqrt pi s) := by
  refine ⟨rfl, rfl, rfl, ?_⟩
  simp only [recalculateCoefficients, pow_two]

theorem consistent_update (sqrt : α → α) (pi : α) (t dt : α) (s : SecondOrderSystem α)
    (h : Consistent sqrt pi s) : Consistent sqrt pi (update t dt s).2 := h

theorem consistent_exec (sqrt : α → α) (pi : α) (c : Call α) (s : SecondOrderSystem α)
    (h : Consistent sqrt pi s) : Consistent sqrt pi (c.exec sqrt pi s) := by
  cases c with
  | update t dt => exact consistent_update sqrt pi t dt s h
  | setParameters f zeta r => exact consistent_recalculateCoefficients sqrt pi _
  | setNaturalFrequency f => exact consistent_recalculateCoefficients sqrt pi _
  | setDamping zeta => exact consistent_recalculateCoefficients sqrt pi _
  | setResponse r => exact consistent_recalculateCoefficients sqrt pi _

theorem consistent_execCalls (sqrt : α → α) (pi : α) (cs : List (Call α)) :
    ∀ s : SecondOrderSystem α, Consistent sqrt pi s →
      Consistent sqrt pi (execCalls sqrt pi cs s) := by
  induction cs with
  | nil => intro s h; exact h
  | cons c cs ih => intro s h; exact ih _ (consistent_exec sqrt pi c s h)

theorem update_fixed_of_rest (s : SecondOrderSystem α) (x dt : α)
    (hv : s.m_velocity = 0) (hp : s.m_position = x) (hu : s.m_prev_input = x) :
    update x dt s = (x, s) := by
  cases s
  simp only at hv hp hu
  subst hv hp hu
  simp [update]

theorem simulate_fixed_of_rest (s : SecondOrderSystem α) (x dt : α)
    (hv : s.m_velocity = 0) (hp : s.m_position = x) (hu : s.m_prev_input = x) (n : ℕ) :
    simulate (List.replicate n (x, dt)) s = (List.replicate n x, s) := by
  induction n with
  | zero => rfl
  | succ n ih =>
    simp only [List.replicate_succ, simulate, update_fixed_of_rest s x dt hv hp hu, ih]

theorem update_fst_eq_position (t dt : α) (s : SecondOrderSystem α) :
    (update t dt s).1 = (update t dt s).2.m_position := rfl

theorem simulate_replicate_succ (c : α × α) (n : ℕ) (s : SecondOrderSystem α) :
    simulate (List.replicate (n + 1) c) s =
      ((update c.1 c.2 s).1 :: (simulate (List.replicate n c) (update c.1 c.2 s).2).1,
       (simulate (List.replicate n c) (update c.1 c.2 s).2).2) := by
  cases c
  rfl

theorem simulate_length (inputs : List (α × α)) :
    ∀ s : SecondOrderSystem α, (simulate inputs s).1.length = inputs.length := by
  induction inputs with
  | nil => intro s; rfl
  | cons c cs ih =>
    intro s
    cases c
    simp [simulate, ih]

theorem simulate_replicate_last (c : α × α) (n : ℕ) :
    ∀ s : SecondOrderSystem α,
      (simulate (List.replicate (n + 1) c) s).1.get? n =
        some (simulate (List.replicate (n + 1) c) s).2.m_position := by
  induction n with
  | zero => intro s; cases c; rfl
  | succ n ih =>
    intro s
    rw [simulate_replicate_succ c (n + 1) s]
    exact ih _

theorem convInv_construct : ConvInv (construct Real.sqrt Real.pi 2 1 0 0) := by
  have hpi := Real.pi_pos
  have hk2 : (1 : ℝ) / (2 * Real.pi * 2) ^ 2 = (1 / (4 * Real.pi)) ^ 2 := by
    field_simp; ring
  have hsq : Real.sqrt ((1 : ℝ) / (2 * Real.pi * 2) ^ 2) = 1 / (4 * Real.pi) := by
    rw [hk2]
    exact Real.sqrt_sq (by positivity)
  refine ⟨?_, ?_, ?_, ?_, ?_⟩
  · show 2 * 1 * Real.sqrt ((1 : ℝ) / (2 * Real.pi * 2) ^ 2) = 1 / (2 * Real.pi)
    rw [hsq]; field_simp; ring
  · show (1 : ℝ) / (2 * Real.pi * 2) ^ 2 = 1 / (4 * Real.pi) ^ 2
    rw [hk2]; field_simp
  · show (0 * (2 * 1 * Real.sqrt ((1 : ℝ) / (2 * Real.pi * 2) ^ 2))) / 2 = 0
    simp
  · show (0 : ℝ) ≤ 0
    exact le_refl 0
  · show (0 : ℝ) ≤ 4 * Real.pi * (5 - 0)
    positivity

theorem convInv_position_le (s : SecondOrderSystem ℝ) (h : ConvInv s) :
    s.m_position ≤ 5 := by
  obtain ⟨_, _, _, hv, hc⟩ := h
  have hpi := Real.pi_pos
  by_contra hlt
  push_neg at hlt
  have : 4 * Real.pi * (5 - s.m_position) < 0 :=
    mul_neg_of_pos_of_neg (by positivity) (by linarith)
  linarith

theorem update_position_conv (s : SecondOrderSystem ℝ) :
    (update 5 (1 / 60) s).2.m_position = s.m_position + s.m_velocity / 60 := by
  show s.m_position + s.m_velocity * (1 / 60) = s.m_position + s.m_velocity / 60
  ring

theorem update_velocity_conv (s : SecondOrderSystem ℝ) (h : ConvInv s) :
    (update 5 (1 / 60) s).2.m_velocity =
      s.m_velocity * (1 - 2 * Real.pi / 15 - Real.pi ^ 2 / 225)
        + 4 * Real.pi ^ 2 / 15 * (5 - s.m_position) := by
  obtain ⟨h1, h2, h3, _, _⟩ := h
  have hpi : Real.pi ≠ 0 := ne_of_gt Real.pi_pos
  show s.m_velocity + (5 + s.m_k3 * ((5 - s.m_prev_input) / (1 / 60))
      - (s.m_position + s.m_velocity * (1 / 60)) - s.m_k1 * s.m_velocity) / s.m_k2 * (1 / 60) = _
  rw [h1, h2, h3]
  field_simp
  ring

theorem convInv_update (s : SecondOrderSystem ℝ) (h : ConvInv s) :
    ConvInv (update 5 (1 / 60) s).2 := by
  have hx := update_position_conv s
  have hv := update_velocity_conv s h
  have hle := convInv_position_le s h
  obtain ⟨h1, h2, h3, hv0, hc⟩ := h
  have hpi := Real.pi_pos
  have hpi4 := Real.pi_le_four
  have hcoef : 0 ≤ 1 - Real.pi / 15 - Real.pi ^ 2 / 225 := by nlinarith
  have hcoef2 : 0 ≤ 1 - 2 * Real.pi / 15 - Real.pi ^ 2 / 225 := by nlinarith
  have he : 0 ≤ 5 - s.m_position := by linarith
  refine ⟨h1, h2, h3, ?_, ?_⟩
  · rw [hv]
    have t1 := mul_nonneg hv0 hcoef2
    have t2 : 0 ≤ 4 * Real.pi ^ 2 / 15 * (5 - s.m_position) := by positivity
    linarith
  · rw [hv, hx]
    have t1 := mul_le_mul_of_nonneg_right hc hcoef
    have t2 : 0 ≤ 4 * Real.pi * (5 - s.m_position) * (Real.pi ^ 2 / 225) := by positivity
    nlinarith

theorem position_le_update_conv (s : SecondOrderSystem ℝ) (h : ConvInv s) :
    s.m_position ≤ (update 5 (1 / 60) s).2.m_position := by
  rw [update_position_conv]
  obtain ⟨_, _, _, hv0, _⟩ := h
  linarith

theorem simulate_conv_outputs (n : ℕ) :
    ∀ s : SecondOrderSystem ℝ, ConvInv s →
      List.Chain (fun a b : ℝ => a ≤ b) s.m_position
        (simulate (List.replicate n ((5 : ℝ), (1 / 60 : ℝ))) s).1 ∧
      (∀ p ∈ (simulate (List.replicate n ((5 : ℝ), (1 / 60 : ℝ))) s).1, p ≤ 5) ∧
      ConvInv (simulate (List.replicate n ((5 : ℝ), (1 / 60 : ℝ))) s).2 := by
  induction n with
  | zero =>
    intro s h
    refine ⟨List.Chain.nil, ?_, h⟩
    intro p hp
    cases hp
  | succ n ih =>
    intro s h
    rw [simulate_replicate_succ]
    have h1 := convInv_update s h
    obtain ⟨ic, ib, ii⟩ := ih _ h1
    refine ⟨List.Chain.cons (position_le_update_conv s h) ic, ?_, ii⟩
    intro p hp
    rcases List.mem_cons.mp hp with hp | hp
    · rw [hp]; exact convInv_position_le _ h1
    · exact ib p hp

theorem update_conv_decay (s : SecondOrderSystem ℝ) (h : ConvInv s) :
    8 * Real.pi * (5 - (update 5 (1 / 60) s).2.m_position)
        - (update 5 (1 / 60) s).2.m_velocity ≤
      (1 - Real.pi / 30) * (8 * Real.pi * (5 - s.m_position) - s.m_velocity) := by
  rw [update_velocity_conv s h, update_position_conv s]
  obtain ⟨_, _, _, hv0, _⟩ := h
  have hpi := Real.pi_pos
  have hpi4 := Real.pi_le_four
  have hc : 0 ≤ Real.pi * (1 / 30 - Real.pi / 225) :=
    mul_nonneg hpi.le (by linarith)
  have t := mul_nonneg hv0 hc
  nlinarith

theorem simulate_conv_decay (n : ℕ) :
    ∀ s : SecondOrderSystem ℝ, ConvInv s →
      8 * Real.pi * (5 - (simulate (List.replicate n ((5 : ℝ), (1 / 60 : ℝ))) s).2.m_position)
          - (simulate (List.replicate n ((5 : ℝ), (1 / 60 : ℝ))) s).2.m_velocity ≤
        (1 - Real.pi / 30) ^ n * (8 * Real.pi * (5 - s.m_position) - s.m_velocity) := by
  have hrho : 0 ≤ 1 - Real.pi / 30 := by linarith [Real.pi_le_four]
  induction n with
  | zero => intro s _; simp [simulate]
  | succ n ih =>
    intro s h
    rw [simulate_replicate_succ]
    calc _ ≤ (1 - Real.pi / 30) ^ n *
            (8 * Real.pi * (5 - (update 5 (1 / 60) s).2.m_position)
              - (update 5 (1 / 60) s).2.m_velocity) := ih _ (convInv_update s h)
      _ ≤ (1 - Real.pi / 30) ^ n *
            ((1 - Real.pi / 30) * (8 * Real.pi * (5 - s.m_position) - s.m_velocity)) :=
          mul_le_mul_of_nonneg_left (update_conv_decay s h) (pow_nonneg hrho n)
      _ = (1 - Real.pi / 30) ^ (n + 1) *
            (8 * Real.pi * (5 - s.m_position) - s.m_velocity) := by ring

theorem conv_distance_bound (n : ℕ) :
    5 - (simulate (List.replicate n ((5 : ℝ), (1 / 60 : ℝ)))
        (construct Real.sqrt Real.pi 2 1 0 0)).2.m_position ≤ 10 * (9 / 10 : ℝ) ^ n := by
  have hd := simulate_conv_decay n _ convInv_construct
  obtain ⟨_, _, hinv⟩ := simulate_conv_outputs n _ convInv_construct
  obtain ⟨_, _, _, _, hc⟩ := hinv
  have hpi := Real.pi_pos
  have h0 : (construct Real.sqrt Real.pi 2 1 0 0).m_position = 0 := rfl
  have h1 : (construct Real.sqrt Real.pi 2 1 0 0).m_velocity = 0 := rfl
  rw [h0, h1] at hd
  have hrho : (1 - Real.pi / 30) ^ n ≤ (9 / 10 : ℝ) ^ n :=
    pow_le_pow_left₀ (by linarith [Real.pi_le_four]) (by linarith [Real.pi_gt_three]) n
  have hmul : (1 - Real.pi / 30) ^ n * (40 * Real.pi) ≤ (9 / 10 : ℝ) ^ n * (40 * Real.pi) :=
    mul_le_mul_of_nonneg_right hrho (by positivity)
  have key : 4 * Real.pi * (5 - (simulate (List.replicate n ((5 : ℝ), (1 / 60 : ℝ)))
      (construct Real.sqrt Real.pi 2 1 0 0)).2.m_position)
      ≤ 4 * Real.pi * (10 * (9 / 10 : ℝ) ^ n) := by
    linarith
  exact le_of_mul_le_mul_left key (by positivity)

theorem update_velocity_inputVelocity (t dt : α) (s : SecondOrderSystem α) :
    (update t dt s).2.m_velocity =
      s.m_velocity + (t + s.m_k3 * inputVelocity t dt s
        - (s.m_position + s.m_velocity * dt) - s.m_k1 * s.m_velocity) / s.m_k2 * dt := rfl

theorem construct_f2_coeffs (r p0 : ℝ) :
    (construct Real.sqrt Real.pi 2 1 r p0).m_k1 = 1 / (2 * Real.pi) ∧
    (construct Real.sqrt Real.pi 2 1 r p0).m_k2 = 1 / (4 * Real.pi) ^ 2 ∧
    (construct Real.sqrt Real.pi 2 1 r p0).m_k3 = r / (4 * Real.pi) := by
  have hpi := Real.pi_pos
  have hk2 : (1 : ℝ) / (2 * Real.pi * 2) ^ 2 = (1 / (4 * Real.pi)) ^ 2 := by
    field_simp; ring
  have hsq : Real.sqrt ((1 : ℝ) / (2 * Real.pi * 2) ^ 2) = 1 / (4 * Real.pi) := by
    rw [hk2]
    exact Real.sqrt_sq (by positivity)
  refine ⟨?_, ?_, ?_⟩
  · show 2 * 1 * Real.sqrt ((1 : ℝ) / (2 * Real.pi * 2) ^ 2) = 1 / (2 * Real.pi)
    rw [hsq]; field_simp; ring
  · show (1 : ℝ) / (2 * Real.pi * 2) ^ 2 = 1 / (4 * Real.pi) ^ 2
    rw [hk2]; field_simp
  · show (r * (2 * 1 * Real.sqrt ((1 : ℝ) / (2 * Real.pi * 2) ^ 2))) / 2 = r / (4 * Real.pi)
    rw [hsq]; field_simp; ring

theorem update_velocity_f2 (s : SecondOrderSystem ℝ) (h1 : s.m_k1 = 1 / (2 * Real.pi))
    (h2 : s.m_k2 = 1 / (4 * Real.pi) ^ 2) :
    (update 5 (1 / 60) s).2.m_velocity =
      s.m_velocity * (1 - 2 * Real.pi / 15 - Real.pi ^ 2 / 225)
        + 4 * Real.pi ^ 2 / 15 * (5 - s.m_position)
        + 16 * Real.pi ^ 2 * s.m_k3 * (5 - s.m_prev_input) := by
  have hpi : Real.pi ≠ 0 := ne_of_gt Real.pi_pos
  show s.m_velocity + (5 + s.m_k3 * ((5 - s.m_prev_input) / (1 / 60))
      - (s.m_position + s.m_velocity * (1 / 60)) - s.m_k1 * s.m_velocity) / s.m_k2 * (1 / 60) = _
  rw [h1, h2]
  field_simp
  ring

theorem first_velocity_f2 (r : ℝ) :
    (update 5 (1 / 60) (construct Real.sqrt Real.pi 2 1 r 0)).2.m_velocity =
      4 * Real.pi ^ 2 / 3 + 20 * Real.pi * r := by
  obtain ⟨h1, h2, h3⟩ := construct_f2_coeffs r 0
  rw [update_velocity_f2 _ h1 h2, h3]
  have hpi : Real.pi ≠ 0 := ne_of_gt Real.pi_pos
  have hx : (construct Real.sqrt Real.pi 2 1 r 0).m_position = 0 := rfl
  have hv : (construct Real.sqrt Real.pi 2 1 r 0).m_velocity = 0 := rfl
  have hu : (construct Real.sqrt Real.pi 2 1 r 0).m_prev_input = 0 := rfl
  rw [hx, hv, hu]
  field_simp
  ring

theorem second_output_fresh (s : SecondOrderSystem α) (p0 t dt1 t2 dt2 : α)
    (hx : s.m_position = p0) (hv : s.m_velocity = 0) (hu : s.m_prev_input = p0)
    (hk2 : s.m_k2 ≠ 0) (hdt1 : dt1 ≠ 0) :
    (update t2 dt2 (update t dt1 s).2).1 =
      p0 + (t - p0) * (dt1 + s.m_k3) * dt2 / s.m_k2 := by
  show (s.m_position + s.m_velocity * dt1)
      + (s.m_velocity + (t + s.m_k3 * ((t - s.m_prev_input) / dt1)
          - (s.m_position + s.m_velocity * dt1) - s.m_k1 * s.m_velocity) / s.m_k2 * dt1) * dt2 = _
  rw [hx, hv, hu]
  field_simp
  ring

theorem construct_translate (sqrt : α → α) (pi : α) (f zeta r p0 c : α) :
    construct sqrt pi f zeta r (p0 + c) = translate c (construct sqrt pi f zeta r p0) := rfl

theorem update_translate (c t dt : α) (s : SecondOrderSystem α) :
    update (t + c) dt (translate c s) = ((update t dt s).1 + c, translate c (update t dt s).2) := by
  have hp : s.m_position + c + s.m_velocity * dt = s.m_position + s.m_velocity * dt + c := by
    ring
  have hn : t + c + s.m_k3 * ((t + c - (s.m_prev_input + c)) / dt)
      - (s.m_position + s.m_velocity * dt + c) - s.m_k1 * s.m_velocity =
      t + s.m_k3 * ((t - s.m_prev_input) / dt)
      - (s.m_position + s.m_velocity * dt) - s.m_k1 * s.m_velocity := by
    rw [show t + c - (s.m_prev_input + c) = t - s.m_prev_input by ring]
    ring
  simp only [update, translate, hp, hn]

theorem simulate_translate (c : α) (inputs : List (α × α)) :
    ∀ s : SecondOrderSystem α,
      simulate (inputs.map (fun i => (i.1 + c, i.2))) (translate c s) =
        ((simulate inputs s).1.map (fun p => p + c), translate c (simulate inputs s).2) := by
  induction inputs with
  | nil => intro s; rfl
  | cons i rest ih =>
    intro s
    cases i with
    | mk t dt =>
      simp only [List.map_cons, simulate, update_translate, ih]

theorem real_root_abs_lt_one (S D x : ℝ) (hD : D < 1) (hS : |S| < 1 + D)
    (hx : x ^ 2 - S * x + D = 0) : x ^ 2 < 1 := by
  obtain ⟨h1, h2⟩ := abs_lt.mp hS
  by_contra hcon
  push_neg at hcon
  rcases le_or_lt 0 x with hx0 | hx0
  · have hx1 : 1 ≤ x := by nlinarith
    nlinarith [mul_nonneg (sub_nonneg.mpr hx1) (sub_nonneg.mpr (le_of_lt (lt_of_lt_of_le hD hx1)))]
  · have hx1 : x ≤ -1 := by nlinarith
    nlinarith [mul_nonneg (show 0 ≤ -1 - x by linarith) (show 0 ≤ -x - D by linarith)]

theorem schur_of_roots_inside (S D : ℝ)
    (h : ∀ z : ℂ, z ^ 2 - (S : ℂ) * z + (D : ℂ) = 0 → Complex.abs z < 1) :
    D < 1 ∧ |S| < 1 + D := by
  rcases le_or_lt 0 (S ^ 2 - 4 * D) with hd | hd
  · -- two real roots
    have hs := Real.sq_sqrt hd
    have hroot : ∀ e : ℝ, e ^ 2 = S ^ 2 - 4 * D → |(S + e) / 2| < 1 := by
      intro e he
      have := h (((S + e) / 2 : ℝ) : ℂ) (by
        have : ((S + e) / 2) ^ 2 - S * ((S + e) / 2) + D = 0 := by nlinarith
        exact_mod_cast this)
      rw [Complex.abs_ofReal] at this
      exact this
    have hp := abs_lt.mp (hroot (Real.sqrt (S ^ 2 - 4 * D)) hs)
    have hm := abs_lt.mp (hroot (-Real.sqrt (S ^ 2 - 4 * D)) (by rw [neg_sq]; exact hs))
    have hq := Real.sqrt_nonneg (S ^ 2 - 4 * D)
    refine ⟨by nlinarith, abs_lt.mpr ⟨by nlinarith, by nlinarith⟩⟩
  · -- complex roots
    have hpos : 0 < 4 * D - S ^ 2 := by linarith
    obtain ⟨q, hs⟩ : ∃ q : ℝ, q ^ 2 = 4 * D - S ^ 2 := ⟨_, Real.sq_sqrt hpos.le⟩
    have hz := h ⟨S / 2, q / 2⟩ (by
      apply Complex.ext
      · simp [pow_two]
        nlinarith
      · simp [pow_two]
        ring)
    have hD : D < 1 := by
      rw [Complex.abs_apply, Complex.normSq_mk] at hz
      have hlt := (Real.sqrt_lt' (by norm_num : (0 : ℝ) < 1)).mp hz
      nlinarith
    refine ⟨hD, abs_lt.mpr ⟨by nlinarith [sq_nonneg (1 - D), sq_nonneg (S + 1 + D)], by nlinarith [sq_nonneg (1 - D), sq_nonneg (S - 1 - D)]⟩⟩

theorem roots_inside_of_schur (S D : ℝ) (hD : D < 1) (hS : |S| < 1 + D) (z : ℂ)
    (hz : z ^ 2 - (S : ℂ) * z + (D : ℂ) = 0) : Complex.abs z < 1 := by
  have hre := congrArg Complex.re hz
  have him := congrArg Complex.im hz
  simp [pow_two] at hre him
  rw [Complex.abs_apply, Complex.normSq_apply]
  rw [Real.sqrt_lt' (by norm_num : (0 : ℝ) < 1)]
  by_cases hy : z.im = 0
  · rw [hy] at hre
    have := real_root_abs_lt_one S D z.re hD hS (by nlinarith)
    rw [hy]; nlinarith
  · have hx : 2 * z.re = S := by
      have : z.im * (2 * z.re - S) = 0 := by nlinarith
      rcases mul_eq_zero.mp this with h0 | h0
      · exact absurd h0 hy
      · linarith
    rw [← hx] at hre
    nlinarith

theorem schur_iff_lt_critical (a b dt : ℝ) (ha : 0 < a) (hb : 0 < b) :
    (1 - a * dt / b < 1 ∧ |2 - dt ^ 2 / b - a * dt / b| < 1 + (1 - a * dt / b)) ↔
      (0 < dt ∧ dt < Real.sqrt (4 * b + a ^ 2) - a) := by
  have hX : a * dt / b * b = a * dt := div_mul_cancel₀ _ hb.ne.symm
  have hY : dt ^ 2 / b * b = dt ^ 2 := div_mul_cancel₀ _ hb.ne.symm
  constructor
  · rintro ⟨h1, h2⟩
    obtain ⟨h3, h4⟩ := abs_lt.mp h2
    have hXpos : 0 < a * dt / b := by linarith
    have hdt : 0 < dt := by
      have hadt : 0 < a * dt := by
        have := mul_pos hXpos hb
        linarith
      by_contra hneg
      push_neg at hneg
      nlinarith
    refine ⟨hdt, ?_⟩
    have hsum : (dt ^ 2 / b + 2 * (a * dt / b)) * b < 4 * b :=
      mul_lt_mul_of_pos_right (by linarith) hb
    have hsq : (dt + a) ^ 2 < 4 * b + a ^ 2 := by nlinarith
    have := (Real.lt_sqrt (by positivity : 0 ≤ dt + a)).mpr hsq
    linarith
  · rintro ⟨hdt, hlt⟩
    have h5 : dt + a < Real.sqrt (4 * b + a ^ 2) := by linarith
    have h6 := (Real.lt_sqrt (by positivity : 0 ≤ dt + a)).mp h5
    have hXpos : 0 < a * dt / b := div_pos (mul_pos ha hdt) hb
    have hYpos : 0 < dt ^ 2 / b := by positivity
    have hsum : dt ^ 2 / b + 2 * (a * dt / b) < 4 := by
      have : (dt ^ 2 / b + 2 * (a * dt / b)) * b < 4 * b := by nlinarith
      exact lt_of_mul_lt_mul_right this hb.le
    exact ⟨by linarith, abs_lt.mpr ⟨by linarith, by linarith⟩⟩

theorem foldl_max_spec (l : List ℚ) :
    ∀ a : ℚ, l.foldl max a ∈ a :: l ∧ ∀ p ∈ a :: l, p ≤ l.foldl max a := by
  induction l with
  | nil =>
    intro a
    refine ⟨List.mem_singleton.mpr rfl, ?_⟩
    intro p hp
    exact le_of_eq (List.mem_singleton.mp hp)
  | cons b rest ih =>
    intro a
    obtain ⟨hmem, hle⟩ := ih (max a b)
    rw [List.foldl_cons]
    constructor
    · rcases List.mem_cons.mp hmem with h | h
      · rw [h]
        rcases max_choice a b with hc | hc
        · rw [hc]; exact List.mem_cons_self _ _
        · rw [hc]; exact List.mem_cons_of_mem _ (List.mem_cons_self _ _)
      · exact List.mem_cons_of_mem _ (List.mem_cons_of_mem _ h)
    · intro p hp
      have hmax := hle (max a b) (List.mem_cons_self _ _)
      rcases List.mem_cons.mp hp with h | h
      · rw [h]; exact le_trans (le_max_left a b) hmax
      · rcases List.mem_cons.mp h with h1 | h1
        · rw [h1]; exact le_trans (le_max_right a b) hmax
        · exact hle p (List.mem_cons_of_mem _ h1)

theorem listMax_spec (l : List ℚ) (m : ℚ) (h : listMax l = some m) :
    m ∈ l ∧ ∀ p ∈ l, p ≤ m := by
  cases l with
  | nil => cases h
  | cons a rest =>
    have hm : rest.foldl max a = m := Option.some.inj h
    rw [← hm]
    exact foldl_max_spec rest a

theorem binary64_reference_values :
    Binary64.roundNearestEven (1 / 10) = some (3602879701896397 / 36028797018963968) ∧
    Binary64.add (3602879701896397 / 36028797018963968) (3602879701896397 / 18014398509481984) =
      some (1351079888211149 / 4503599627370496) ∧
    Binary64.mul (3602879701896397 / 36028797018963968) (3602879701896397 / 36028797018963968) =
      some (1441151880758559 / 144115188075855872) ∧
    Binary64.div 1 3 = some (6004799503160661 / 18014398509481984) ∧
    Binary64.sqrt 2 = some (6369051672525773 / 4503599627370496) ∧
    Binary64.roundNearestEven (((2 ^ 53 + 1 : ℕ) : ℚ)) = some (((2 ^ 53 : ℕ) : ℚ)) ∧
    Binary64.roundNearestEven (((2 ^ 53 + 3 : ℕ) : ℚ)) = some (((2 ^ 53 + 4 : ℕ) : ℚ)) ∧
    Binary64.roundNearestEven ((((2 ^ 53 - 1) * 2 ^ 971 : ℕ) : ℚ)) =
      some ((((2 ^ 53 - 1) * 2 ^ 971 : ℕ) : ℚ)) ∧
    Binary64.roundNearestEven (((2 ^ 1024 : ℕ) : ℚ)) = none ∧
    Binary64.roundNearestEven (1 / ((2 ^ 1075 : ℕ) : ℚ)) = some 0 ∧
    Binary64.roundNearestEven (3 / ((2 ^ 1075 : ℕ) : ℚ)) = some (1 / ((2 ^ 1073 : ℕ) : ℚ)) ∧
    Binary64.div 1 0 = none ∧
    Binary64.sqrt (-1) = none := by
  decide!

theorem forceNat_eq {β : Type} (n : ℕ) (k : ℕ → β) : Binary64.forceNat n k = k n := by
  cases n <;> rfl

theorem forceInt_eq {β : Type} (i : ℤ) (k : ℤ → β) : Binary64.forceInt i k = k i := by
  cases i <;> simp [Binary64.forceInt, forceNat_eq]

theorem forceBool_eq {β : Type} (b : Bool) (k : Bool → β) : Binary64.forceBool b k = k b := by
  cases b <;> rfl

/-- Claim C1: for every filter state and every target `t` and time step `dt`,
`update t dt` returns `p' = p + v * dt` and leaves position `p'`, velocity
`v + dt * (t + k3 * ((t - u) / dt) - p' - k1 * v) / k2` (with the advanced
position `p'` inside the acceleration) and previousTarget `t`. -/
theorem update_contract (s : SecondOrderSystem α) (t dt : α) :
    (update t dt s).1 = s.m_position + s.m_velocity * dt ∧
    (update t dt s).2.m_position = s.m_position + s.m_velocity * dt ∧
    (update t dt s).2.m_velocity =
      s.m_velocity + dt * (t + s.m_k3 * ((t - s.m_prev_input) / dt)
        - (s.m_position + s.m_velocity * dt) - s.m_k1 * s.m_velocity) / s.m_k2 ∧
    (update t dt s).2.m_prev_input = t := by
  refine ⟨rfl, rfl, ?_, rfl⟩
  simp only [update]
  rw [mul_div_assoc, mul_comm dt]

/-- Claim C2: for every real `f > 0`, `zeta` and `r`, the constructed filter has
`k2 = 1 / (2 * pi * f) ^ 2`, `k1 = 2 * zeta * sqrt k2`, `k3 = (r * k1) / 2` and
`criticalTimeStep = sqrt (4 * k2 + k1 ^ 2) - k1`. -/
theorem construct_coefficients (f zeta r initial_position : ℝ) (hf : 0 < f) :
    (construct Real.sqrt Real.pi f zeta r initial_position).m_k2 =
      1 / (2 * Real.pi * f) ^ 2 ∧
    (construct Real.sqrt Real.pi f zeta r initial_position).m_k1 =
      2 * zeta * Real.sqrt ((construct Real.sqrt Real.pi f zeta r initial_position).m_k2) ∧
    (construct Real.sqrt Real.pi f zeta r initial_position).m_k3 =
      (r * (construct Real.sqrt Real.pi f zeta r initial_position).m_k1) / 2 ∧
    (construct Real.sqrt Real.pi f zeta r initial_position).m_T_crit =
      Real.sqrt (4 * (construct Real.sqrt Real.pi f zeta r initial_position).m_k2
        + (construct Real.sqrt Real.pi f zeta r initial_position).m_k1 ^ 2)
      - (construct Real.sqrt Real.pi f zeta r initial_position).m_k1 :=
  consistent_recalculateCoefficients Real.sqrt Real.pi _

/-- Witness for C2 over the reals: `f = 2`, `zeta = 1`, `r = 0`. -/
theorem construct_coefficients_witness :
    (0 : ℝ) < 2 ∧
    (construct Real.sqrt Real.pi 2 1 0 0).m_k2 = 1 / (2 * Real.pi * 2) ^ 2 ∧
    (construct Real.sqrt Real.pi 2 1 0 0).m_k1 =
      2 * 1 * Real.sqrt ((construct Real.sqrt Real.pi 2 1 0 0).m_k2) ∧
    (construct Real.sqrt Real.pi 2 1 0 0).m_k3 =
      (0 * (construct Real.sqrt Real.pi 2 1 0 0).m_k1) / 2 ∧
    (construct Real.sqrt Real.pi 2 1 0 0).m_T_crit =
      Real.sqrt (4 * (construct Real.sqrt Real.pi 2 1 0 0).m_k2
        + (construct Real.sqrt Real.pi 2 1 0 0).m_k1 ^ 2)
      - (construct Real.sqrt Real.pi 2 1 0 0).m_k1 :=
  ⟨by norm_num, construct_coefficients 2 1 0 0 (by norm_num)⟩

/-- Claim C3: the constructed filter stores `f`, `zeta`, `r` as given and has
position `initialPosition`, velocity `0` and previousTarget `initialPosition`;
with `initialPosition` omitted, position and previousTarget are `0`. -/
theorem construct_state (sqrt : α → α) (pi : α) (f zeta r initial_position : α) :
    ((construct sqrt pi f zeta r initial_position).m_f = f ∧
     (construct sqrt pi f zeta r initial_position).m_zeta = zeta ∧
     (construct sqrt pi f zeta r initial_position).m_r = r ∧
     (construct sqrt pi f zeta r initial_position).m_position = initial_position ∧
     (construct sqrt pi f zeta r initial_position).m_velocity = 0 ∧
     (construct sqrt pi f zeta r initial_position).m_prev_input = initial_position) ∧
    ((construct sqrt pi f zeta r).m_f = f ∧
     (construct sqrt pi f zeta r).m_zeta = zeta ∧
     (construct sqrt pi f zeta r).m_r = r ∧
     (construct sqrt pi f zeta r).m_position = 0 ∧
     (construct sqrt pi f zeta r).m_velocity = 0 ∧
     (construct sqrt pi f zeta r).m_prev_input = 0) :=
  ⟨⟨rfl, rfl, rfl, rfl, rfl, rfl⟩, ⟨rfl, rfl, rfl, rfl, rfl, rfl⟩⟩

/-! ## Reconfiguration -/

/-- Claim C4: each of `setParameters`, `setNaturalFrequency`, `setDamping` and
`setResponse`, on every state and with every argument, leaves position,
velocity and previousTarget as they were. -/
theorem setters_keep_running_state (sqrt : α → α) (pi : α) (s : SecondOrderSystem α)
    (f zeta r : α) :
    ((setParameters sqrt pi f zeta r s).m_position = s.m_position ∧
     (setParameters sqrt pi f zeta r s).m_velocity = s.m_velocity ∧
     (setParameters sqrt pi f zeta r s).m_prev_input = s.m_prev_input) ∧
    ((setNaturalFrequency sqrt pi f s).m_position = s.m_position ∧
     (setNaturalFrequency sqrt pi f s).m_velocity = s.m_velocity ∧
     (setNaturalFrequency sqrt pi f s).m_prev_input = s.m_prev_input) ∧
    ((setDamping sqrt pi zeta s).m_position = s.m_position ∧
     (setDamping sqrt pi zeta s).m_velocity = s.m_velocity ∧
     (setDamping sqrt pi zeta s).m_prev_input = s.m_prev_input) ∧
    ((setResponse sqrt pi r s).m_position = s.m_position ∧
     (setResponse sqrt pi r s).m_velocity = s.m_velocity ∧
     (setResponse sqrt pi r s).m_prev_input = s.m_prev_input) :=
  ⟨⟨rfl, rfl, rfl⟩, ⟨rfl, rfl, rfl⟩, ⟨rfl, rfl, rfl⟩, ⟨rfl, rfl, rfl⟩⟩

/-- Claim C5: in every state reached from construction by any sequence of
`update`, `setParameters`, `setNaturalFrequency`, `setDamping` and
`setResponse` calls, the stored `k1`, `k2`, `k3` and `criticalTimeStep` are the
values the derivation formulas give for the stored `f`, `zeta`, `r`. -/
theorem reachable_coefficients_consistent (sqrt : α → α) (pi : α)
    (f zeta r initial_position : α) (calls : List (Call α)) :
    (execCalls sqrt pi calls (construct sqrt pi f zeta r initial_position)).m_k2 =
      1 / (2 * pi *
        (execCalls sqrt pi calls (construct sqrt pi f zeta r initial_position)).m_f) ^ 2 ∧
    (execCalls sqrt pi calls (construct sqrt pi f zeta r initial_position)).m_k1 =
      2 * (execCalls sqrt pi calls (construct sqrt pi f zeta r initial_position)).m_zeta *
        sqrt (execCalls sqrt pi calls (construct sqrt pi f zeta r initial_position)).m_k2 ∧
    (execCalls sqrt pi calls (construct sqrt pi f zeta r initial_position)).m_k3 =
      ((execCalls sqrt pi calls (construct sqrt pi f zeta r initial_position)).m_r *
        (execCalls sqrt pi calls (construct sqrt pi f zeta r initial_position)).m_k1) / 2 ∧
    (execCalls sqrt pi calls (construct sqrt pi f zeta r initial_position)).m_T_crit =
      sqrt (4 * (execCalls sqrt pi calls (construct sqrt pi f zeta r initial_position)).m_k2
        + (execCalls sqrt pi calls (construct sqrt pi f zeta r initial_position)).m_k1 ^ 2)
      - (execCalls sqrt pi calls (construct sqrt pi f zeta r initial_position)).m_k1 :=
  consistent_execCalls sqrt pi calls _ (consistent_recalculateCoefficients sqrt pi _)

/-- Claim C6: on a filter with stored parameters `(f0, z0, r0)`,
`setNaturalFrequency f` yields the same filter as `setParameters f z0 r0`,
`setDamping z` the same as `setParameters f0 z r0`, `setResponse r` the same as
`setParameters f0 z0 r`; and `setParameters f z r` equals the three single
setters applied in each of the six orders. -/
theorem single_setters_refine_setParameters (sqrt : α → α) (pi : α)
    (s : SecondOrderSystem α) (f z r : α) :
    setNaturalFrequency sqrt pi f s = setParameters sqrt pi f s.m_zeta s.m_r s ∧
    setDamping sqrt pi z s = setParameters sqrt pi s.m_f z s.m_r s ∧
    setResponse sqrt pi r s = setParameters sqrt pi s.m_f s.m_zeta r s ∧
    setResponse sqrt pi r (setDamping sqrt pi z (setNaturalFrequency sqrt pi f s)) =
      setParameters sqrt pi f z r s ∧
    setDamping sqrt pi z (setResponse sqrt pi r (setNaturalFrequency sqrt pi f s)) =
      setParameters sqrt pi f z r s ∧
    setResponse sqrt pi r (setNaturalFrequency sqrt pi f (setDamping sqrt pi z s)) =
      setParameters sqrt pi f z r s ∧
    setNaturalFrequency sqrt pi f (setResponse sqrt pi r (setDamping sqrt pi z s)) =
      setParameters sqrt pi f z r s ∧
    setDamping sqrt pi z (setNaturalFrequency sqrt pi f (setResponse sqrt pi r s)) =
      setParameters sqrt pi f z r s ∧
    setNaturalFrequency sqrt pi f (setDamping sqrt pi z (setResponse sqrt pi r s)) =
      setParameters sqrt pi f z r s :=
  ⟨rfl, rfl, rfl, rfl, rfl, rfl, rfl, rfl, rfl⟩

/-- Counterexample to C7 as stated: a non-positive natural frequency is not
rejected.  The constructor called with `f = 0` yields a filter that stores
`0`; on the filter built with `f = 1`, `setNaturalFrequency 0` and
`setParameters (-1) 1 0` overwrite the stored frequency, so the state after
the call differs from the state before it. -/
theorem nonpositive_frequency_not_rejected :
    (construct Real.sqrt Real.pi 0 1 0 0).m_f = 0 ∧
    (construct Real.sqrt Real.pi 1 1 0 0).m_f = 1 ∧
    (setNaturalFrequency Real.sqrt Real.pi 0 (construct Real.sqrt Real.pi 1 1 0 0)).m_f = 0 ∧
    (setParameters Real.sqrt Real.pi (-1) 1 0 (construct Real.sqrt Real.pi 1 1 0 0)).m_f = -1 ∧
    setNaturalFrequency Real.sqrt Real.pi 0 (construct Real.sqrt Real.pi 1 1 0 0) ≠
      construct Real.sqrt Real.pi 1 1 0 0 ∧
    setParameters Real.sqrt Real.pi (-1) 1 0 (construct Real.sqrt Real.pi 1 1 0 0) ≠
      construct Real.sqrt Real.pi 1 1 0 0 := by
  refine ⟨rfl, rfl, rfl, rfl, ?_, ?_⟩
  · intro h
    have hf := congrArg SecondOrderSystem.m_f h
    simp [setNaturalFrequency, construct, recalculateCoefficients] at hf
  · intro h
    have hf := congrArg SecondOrderSystem.m_f h
    simp [setParameters, construct, recalculateCoefficients] at hf
    norm_num at hf

/-- Claim C7, amended: a natural frequency `f ≤ 0` is accepted like any
other value.  The constructor, `setParameters` and `setNaturalFrequency`
store it and derive `k2 = 1 / (2 * pi * f) ^ 2` from it; the two setters
replace the parameters they are given, keep the others, and leave position,
velocity and previousTarget unchanged. -/
theorem nonpositive_frequency_accepted (s : SecondOrderSystem ℝ)
    (f zeta r initial_position : ℝ) (hf : f ≤ 0) :
    ((construct Real.sqrt Real.pi f zeta r initial_position).m_f = f ∧
     (construct Real.sqrt Real.pi f zeta r initial_position).m_k2 = 1 / (2 * Real.pi * f) ^ 2) ∧
    ((setParameters Real.sqrt Real.pi f zeta r s).m_f = f ∧
     (setParameters Real.sqrt Real.pi f zeta r s).m_zeta = zeta ∧
     (setParameters Real.sqrt Real.pi f zeta r s).m_r = r ∧
     (setParameters Real.sqrt Real.pi f zeta r s).m_k2 = 1 / (2 * Real.pi * f) ^ 2 ∧
     (setParameters Real.sqrt Real.pi f zeta r s).m_position = s.m_position ∧
     (setParameters Real.sqrt Real.pi f zeta r s).m_velocity = s.m_velocity ∧
     (setParameters Real.sqrt Real.pi f zeta r s).m_prev_input = s.m_prev_input) ∧
    ((setNaturalFrequency Real.sqrt Real.pi f s).m_f = f ∧
     (setNaturalFrequency Real.sqrt Real.pi f s).m_zeta = s.m_zeta ∧
     (setNaturalFrequency Real.sqrt Real.pi f s).m_r = s.m_r ∧
     (setNaturalFrequency Real.sqrt Real.pi f s).m_k2 = 1 / (2 * Real.pi * f) ^ 2 ∧
     (setNaturalFrequency Real.sqrt Real.pi f s).m_position = s.m_position ∧
     (setNaturalFrequency Real.sqrt Real.pi f s).m_velocity = s.m_velocity ∧
     (setNaturalFrequency Real.sqrt Real.pi f s).m_prev_input = s.m_prev_input) :=
  ⟨⟨rfl, rfl⟩, ⟨rfl, rfl, rfl, rfl, rfl, rfl, rfl⟩, ⟨rfl, rfl, rfl, rfl, rfl, rfl, rfl⟩⟩

/-- Witness for the amended C7 over the reals: frequency `-1` on the filter
built with `(1, 1, 0)` at position `5`. -/
theorem nonpositive_frequency_accepted_witness :
    (-1 : ℝ) ≤ 0 ∧
    (construct Real.sqrt Real.pi (-1) 1 0 5).m_f = -1 ∧
    (setParameters Real.sqrt Real.pi (-1) 1 0 (construct Real.sqrt Real.pi 1 1 0 5)).m_f = -1 ∧
    (setNaturalFrequency Real.sqrt Real.pi (-1) (construct Real.sqrt Real.pi 1 1 0 5)).m_f = -1 ∧
    (setNaturalFrequency Real.sqrt Real.pi (-1)
      (construct Real.sqrt Real.pi 1 1 0 5)).m_position = 5 :=
  have h := nonpositive_frequency_accepted
    (construct Real.sqrt Real.pi 1 1 0 5) (-1) 1 0 5 (by norm_num)
  ⟨by norm_num, h.1.1, h.2.1.1, h.2.2.1, h.2.2.2.2.2.2.1⟩

/-! ## Trajectories -/

/-- Claim C8 (step at rest), over the reals: for a filter with `f > 0`, velocity `0` and
previousTarget = position = `x`, and every `deltaTime > 0`, `update x deltaTime`
returns `x` and leaves position `x`, velocity `0`, previousTarget `x`; any
number `n` of repeated steps with target `x` returns `x` each time and keeps
the position equal to `x`. -/
theorem step_at_rest (s : SecondOrderSystem ℝ)
    (x deltaTime : ℝ) (hf : 0 < s.m_f) (hv : s.m_velocity = 0) (hp : s.m_position = x)
    (hu : s.m_prev_input = x) (hdt : 0 < deltaTime) :
    ((update x deltaTime s).1 = x ∧
     (update x deltaTime s).2.m_position = x ∧
     (update x deltaTime s).2.m_velocity = 0 ∧
     (update x deltaTime s).2.m_prev_input = x) ∧
    ∀ n : ℕ,
      (simulate (List.replicate n (x, deltaTime)) s).1 = List.replicate n x ∧
      (simulate (List.replicate n (x, deltaTime)) s).2.m_position = x ∧
      (simulate (List.replicate n (x, deltaTime)) s).2.m_velocity = 0 ∧
      (simulate (List.replicate n (x, deltaTime)) s).2.m_prev_input = x := by
  constructor
  · rw [update_fixed_of_rest s x deltaTime hv hp hu]
    exact ⟨rfl, hp, hv, hu⟩
  · intro n
    rw [simulate_fixed_of_rest s x deltaTime hv hp hu n]
    exact ⟨rfl, hp, hv, hu⟩

/-- Witness for C8 over the reals: `f = 1`, `zeta = 1`, `r = 0`, initial
position `5`, target `5`, `deltaTime = 1 / 60`, sixty steps. -/
theorem step_at_rest_witness :
    (0 : ℝ) < (construct Real.sqrt Real.pi 1 1 0 5).m_f ∧ (0 : ℝ) < 1 / 60 ∧
    (update 5 (1 / 60) (construct Real.sqrt Real.pi 1 1 0 5)).1 = 5 ∧
    (simulate (List.replicate 60 (5, 1 / 60)) (construct Real.sqrt Real.pi 1 1 0 5)).1 =
      List.replicate 60 5 ∧
    (simulate (List.replicate 60 (5, 1 / 60))
      (construct Real.sqrt Real.pi 1 1 0 5)).2.m_position = 5 :=
  have hf : (0 : ℝ) < (construct Real.sqrt Real.pi 1 1 0 5).m_f :=
    show (0 : ℝ) < 1 by norm_num
  have h := step_at_rest (construct Real.sqrt Real.pi 1 1 0 5) 5 (1 / 60) hf rfl rfl rfl
    (by norm_num)
  ⟨hf, by norm_num, h.1.1, (h.2 60).1, (h.2 60).2.1⟩

/-- Claim C9 (convergence without overshoot), over the reals: for the filter
constructed with `f = 2`, `zeta = 1`, `r = 0`, initial position `0` and stepped
300 times with `update 5 (1 / 60)`, the 300 returned positions are
non-decreasing (each is at most the next one) and none exceeds the target `5`. -/
theorem convergence_monotone_no_overshoot :
    (simulate (List.replicate 300 ((5 : ℝ), (1 / 60 : ℝ)))
      (construct Real.sqrt Real.pi 2 1 0 0)).1.length = 300 ∧
    List.Chain' (fun a b : ℝ => a ≤ b)
      (simulate (List.replicate 300 ((5 : ℝ), (1 / 60 : ℝ)))
        (construct Real.sqrt Real.pi 2 1 0 0)).1 ∧
    ∀ p ∈ (simulate (List.replicate 300 ((5 : ℝ), (1 / 60 : ℝ)))
        (construct Real.sqrt Real.pi 2 1 0 0)).1, p ≤ 5 := by
  refine ⟨?_, ?_, (simulate_conv_outputs 300 _ convInv_construct).2.1⟩
  · rw [simulate_length, List.length_replicate]
  · rw [simulate_replicate_succ]
    exact (simulate_conv_outputs 299 _ (convInv_update _ convInv_construct)).1

/-- Claim C10 (convergence accuracy), over the reals: for the filter
constructed with `f = 2`, `zeta = 1`, `r = 0`, initial position `0` and stepped
300 times with `update 5 (1 / 60)`, the position `p` returned by the 300th
step satisfies `|p - 5| ≤ 0.05`. -/
theorem convergence_within_one_percent :
    ∃ p : ℝ,
      (simulate (List.replicate 300 ((5 : ℝ), (1 / 60 : ℝ)))
        (construct Real.sqrt Real.pi 2 1 0 0)).1.get? 299 = some p ∧
      |p - 5| ≤ 0.05 := by
  refine ⟨_, simulate_replicate_last ((5 : ℝ), (1 / 60 : ℝ)) 299 _, ?_⟩
  have hb := conv_distance_bound 300
  have hle := convInv_position_le _ (simulate_conv_outputs 300 _ convInv_construct).2.2
  have hnum : 10 * (9 / 10 : ℝ) ^ 300 ≤ 0.05 := by norm_num
  rw [abs_le]
  constructor <;> linarith

/-! ## Further contracts of construction and of the step -/

/-- Claim C12 (critical time step sanity), over the reals: for every `f > 0`
and `zeta ≥ 0` (and every `r`), the constructed filter has `k2 > 0`, the
square-root argument `4 * k2 + k1 * k1` of the derivation is non-negative, and
the resulting `criticalTimeStep = sqrt (4 * k2 + k1 ^ 2) - k1` is non-negative. -/
theorem critical_time_step_nonneg (f zeta r initial_position : ℝ) (hf : 0 < f)
    (hzeta : 0 ≤ zeta) :
    0 < (construct Real.sqrt Real.pi f zeta r initial_position).m_k2 ∧
    0 ≤ 4 * (construct Real.sqrt Real.pi f zeta r initial_position).m_k2
        + (construct Real.sqrt Real.pi f zeta r initial_position).m_k1
          * (construct Real.sqrt Real.pi f zeta r initial_position).m_k1 ∧
    (construct Real.sqrt Real.pi f zeta r initial_position).m_T_crit =
      Real.sqrt (4 * (construct Real.sqrt Real.pi f zeta r initial_position).m_k2
        + (construct Real.sqrt Real.pi f zeta r initial_position).m_k1 ^ 2)
      - (construct Real.sqrt Real.pi f zeta r initial_position).m_k1 ∧
    0 ≤ (construct Real.sqrt Real.pi f zeta r initial_position).m_T_crit := by
  have hpi := Real.pi_pos
  have hk2 : 0 < (construct Real.sqrt Real.pi f zeta r initial_position).m_k2 := by
    show (0 : ℝ) < 1 / (2 * Real.pi * f) ^ 2
    positivity
  have hcons := consistent_recalculateCoefficients Real.sqrt Real.pi
    { m_f := f, m_zeta := zeta, m_r := r, m_position := initial_position, m_velocity := 0,
      m_prev_input := initial_position, m_k1 := 0, m_k2 := 0, m_k3 := 0, m_T_crit := 0 }
  have htc : (construct Real.sqrt Real.pi f zeta r initial_position).m_T_crit =
      Real.sqrt (4 * (construct Real.sqrt Real.pi f zeta r initial_position).m_k2
        + (construct Real.sqrt Real.pi f zeta r initial_position).m_k1 ^ 2)
      - (construct Real.sqrt Real.pi f zeta r initial_position).m_k1 := hcons.2.2.2
  refine ⟨hk2, ?_, htc, ?_⟩
  · nlinarith [mul_self_nonneg (construct Real.sqrt Real.pi f zeta r initial_position).m_k1]
  · rw [htc]
    have habs : |(construct Real.sqrt Real.pi f zeta r initial_position).m_k1| ≤
        Real.sqrt (4 * (construct Real.sqrt Real.pi f zeta r initial_position).m_k2
          + (construct Real.sqrt Real.pi f zeta r initial_position).m_k1 ^ 2) :=
      Real.abs_le_sqrt (by linarith)
    linarith [le_abs_self (construct Real.sqrt Real.pi f zeta r initial_position).m_k1]

/-- Witness for C12 over the reals: `f = 2`, `zeta = 1`, `r = 0`. -/
theorem critical_time_step_nonneg_witness :
    (0 : ℝ) < 2 ∧ (0 : ℝ) ≤ 1 ∧
    0 < (construct Real.sqrt Real.pi 2 1 0 0).m_k2 ∧
    0 ≤ (construct Real.sqrt Real.pi 2 1 0 0).m_T_crit :=
  have h := critical_time_step_nonneg 2 1 0 0 (by norm_num) (by norm_num)
  ⟨by norm_num, by norm_num, h.1, h.2.2.2⟩

/-- Claim C13 (determinism): the position sequence and the final state of a
run are a function of the constructor arguments and the input sequence only.
Two filters constructed with the same `(f, zeta, r, initialPosition)`, whatever
the four coefficient members held before the constructor body ran (`g1`, `g2`
stand for that storage), and stepped with the same sequence of
(target, deltaTime) pairs return identical position sequences and end in
identical states, namely those of `simulate inputs (construct ...)`. -/
theorem trajectory_deterministic (sqrt : α → α) (pi : α) (f zeta r initial_position : α)
    (inputs : List (α × α)) (g1 g2 : SecondOrderSystem α) :
    (simulate inputs (recalculateCoefficients sqrt pi
        { g1 with m_f := f, m_zeta := zeta, m_r := r, m_position := initial_position,
                  m_velocity := 0, m_prev_input := initial_position })).1 =
      (simulate inputs (recalculateCoefficients sqrt pi
        { g2 with m_f := f, m_zeta := zeta, m_r := r, m_position := initial_position,
                  m_velocity := 0, m_prev_input := initial_position })).1 ∧
    (simulate inputs (recalculateCoefficients sqrt pi
        { g1 with m_f := f, m_zeta := zeta, m_r := r, m_position := initial_position,
                  m_velocity := 0, m_prev_input := initial_position })).2 =
      (simulate inputs (recalculateCoefficients sqrt pi
        { g2 with m_f := f, m_zeta := zeta, m_r := r, m_position := initial_position,
                  m_velocity := 0, m_prev_input := initial_position })).2 ∧
    simulate inputs (recalculateCoefficients sqrt pi
        { g1 with m_f := f, m_zeta := zeta, m_r := r, m_position := initial_position,
                  m_velocity := 0, m_prev_input := initial_position }) =
      simulate inputs (construct sqrt pi f zeta r initial_position) :=
  ⟨rfl, rfl, rfl⟩

/-- Claim C14: for every filter state, target and time step, `update` changes
only position, velocity and previousTarget; the stored `f`, `zeta`, `r`, `k1`,
`k2`, `k3` and `criticalTimeStep` are the same after the call as before. -/
theorem update_keeps_parameters_and_coefficients (s : SecondOrderSystem α) (t dt : α) :
    (update t dt s).2.m_f = s.m_f ∧
    (update t dt s).2.m_zeta = s.m_zeta ∧
    (update t dt s).2.m_r = s.m_r ∧
    (update t dt s).2.m_k1 = s.m_k1 ∧
    (update t dt s).2.m_k2 = s.m_k2 ∧
    (update t dt s).2.m_k3 = s.m_k3 ∧
    (update t dt s).2.m_T_crit = s.m_T_crit :=
  ⟨rfl, rfl, rfl, rfl, rfl, rfl, rfl⟩

/-- Counterexample to C15 as stated: the filter of main.cpp (initial position
`0`, here with `f = 2`, `zeta = 1`) stepped first with target `5` and
`deltaTime = 1 / 60` sees the estimated target velocity `300`, not `0`, and the
velocity after this first step differs between `r = 0` and `r = 1`. -/
theorem first_step_target_velocity_nonzero :
    inputVelocity 5 (1 / 60) (construct Real.sqrt Real.pi 2 1 0 0) = 300 ∧
    inputVelocity 5 (1 / 60) (construct Real.sqrt Real.pi 2 1 0 0) ≠ 0 ∧
    (update 5 (1 / 60) (construct Real.sqrt Real.pi 2 1 0 0)).2.m_velocity ≠
      (update 5 (1 / 60) (construct Real.sqrt Real.pi 2 1 1 0)).2.m_velocity := by
  have h300 : inputVelocity 5 (1 / 60) (construct Real.sqrt Real.pi 2 1 0 0) = 300 := by
    show ((5 : ℝ) - 0) / (1 / 60) = 300
    norm_num
  refine ⟨h300, ?_, ?_⟩
  · rw [h300]; norm_num
  · rw [first_velocity_f2 0, first_velocity_f2 1]
    have hpi := Real.pi_pos
    intro h
    linarith

/-- Claim C15, amended: for every freshly constructed filter (any `f > 0`,
`zeta`, `r`, initial position `p0`) and every `deltaTime > 0`, the first
`update target deltaTime` sees the estimated target velocity
`(target - p0) / deltaTime`; it is `0` exactly when `target = p0`, and in that
case the velocity after the first step is `0` whatever the response factor. -/
theorem first_step_target_velocity (f zeta r p0 target deltaTime : ℝ) (hf : 0 < f)
    (hdt : 0 < deltaTime) :
    inputVelocity target deltaTime (construct Real.sqrt Real.pi f zeta r p0) =
      (target - p0) / deltaTime ∧
    (inputVelocity target deltaTime (construct Real.sqrt Real.pi f zeta r p0) = 0 ↔
      target = p0) ∧
    (∀ r' : ℝ,
      (update p0 deltaTime (construct Real.sqrt Real.pi f zeta r' p0)).2.m_velocity = 0 ∧
      (update p0 deltaTime (construct Real.sqrt Real.pi f zeta r p0)).2.m_velocity =
        (update p0 deltaTime (construct Real.sqrt Real.pi f zeta r' p0)).2.m_velocity) := by
  have hrest : ∀ r' : ℝ,
      (update p0 deltaTime (construct Real.sqrt Real.pi f zeta r' p0)).2.m_velocity = 0 := by
    intro r'
    rw [update_fixed_of_rest (construct Real.sqrt Real.pi f zeta r' p0) p0 deltaTime rfl rfl rfl]
    rfl
  refine ⟨rfl, ?_, fun r' => ⟨hrest r', (hrest r).trans (hrest r').symm⟩⟩
  show (target - p0) / deltaTime = 0 ↔ target = p0
  rw [div_eq_zero_iff]
  constructor
  · rintro (h | h)
    · linarith
    · linarith
  · intro h
    left
    linarith

/-- Witness for the amended C15 over the reals: `f = 2`, `zeta = 1`, `r = 1`,
initial position `0`, `deltaTime = 1 / 60`. -/
theorem first_step_target_velocity_witness :
    (0 : ℝ) < 2 ∧ (0 : ℝ) < 1 / 60 ∧
    inputVelocity 5 (1 / 60) (construct Real.sqrt Real.pi 2 1 1 0) = (5 - 0) / (1 / 60) ∧
    (update 0 (1 / 60) (construct Real.sqrt Real.pi 2 1 1 0)).2.m_velocity = 0 :=
  have h := first_step_target_velocity 2 1 1 0 5 (1 / 60) (by norm_num) (by norm_num)
  have h0 := first_step_target_velocity 2 1 1 0 0 (1 / 60) (by norm_num) (by norm_num)
  ⟨by norm_num, by norm_num, h.1, (h0.2.2 1).1⟩

/-- Claim C16: `update` has no validation or error path.  For every
`deltaTime` (zero and negative values included) the call returns
`position + velocity * deltaTime` and commits previousTarget = target; with
`deltaTime = 0` the returned position is the old position while previousTarget
is still overwritten, so a target different from the stored previousTarget
leaves a state different from the one before the call. -/
theorem update_no_validation (s : SecondOrderSystem α) (t dt : α) :
    (update t dt s).1 = s.m_position + s.m_velocity * dt ∧
    (update t dt s).2.m_position = s.m_position + s.m_velocity * dt ∧
    (update t dt s).2.m_prev_input = t ∧
    (update t 0 s).1 = s.m_position ∧
    (update t 0 s).2.m_position = s.m_position ∧
    (update t 0 s).2.m_prev_input = t ∧
    (t ≠ s.m_prev_input → (update t 0 s).2 ≠ s) := by
  have h0 : s.m_position + s.m_velocity * 0 = s.m_position := by ring
  refine ⟨rfl, rfl, rfl, h0, h0, rfl, ?_⟩
  intro hne heq
  exact hne (congrArg SecondOrderSystem.m_prev_input heq)

/-- Witness for C16 over the reals: the filter built with `(1, 1, 0)` at
position `0`, stepped with target `5` and `deltaTime = 0` or `-1`. -/
theorem update_no_validation_witness :
    (update (5 : ℝ) 0 (construct Real.sqrt Real.pi 1 1 0 0)).1 = 0 ∧
    (update (5 : ℝ) 0 (construct Real.sqrt Real.pi 1 1 0 0)).2.m_prev_input = 5 ∧
    (update (5 : ℝ) 0 (construct Real.sqrt Real.pi 1 1 0 0)).2 ≠
      construct Real.sqrt Real.pi 1 1 0 0 ∧
    (update (5 : ℝ) (-1) (construct Real.sqrt Real.pi 1 1 0 0)).2.m_prev_input = 5 :=
  have h := update_no_validation (construct Real.sqrt Real.pi 1 1 0 0) (5 : ℝ) 0
  have hneg := update_no_validation (construct Real.sqrt Real.pi 1 1 0 0) (5 : ℝ) (-1)
  ⟨h.2.2.2.1, h.2.2.2.2.2.1,
    h.2.2.2.2.2.2 (show (5 : ℝ) ≠ 0 by norm_num), hneg.2.2.1⟩

/-- Counterexample to C18 as stated: on the filter built with `f = 2`,
`zeta = 1`, `r = -(π / 15)` at position `0` (so that `k3 = -(1 / 60)`), stepped
with `deltaTime = 1 / 60`, the output of the call that follows the first one is
`0` whether the first target was `5`, `6` or `1000`: the first target does not
influence the following output. -/
theorem following_output_ignores_target :
    (5 : ℝ) ≠ 6 ∧
    (update (5 : ℝ) (1 / 60)
      (update 5 (1 / 60) (construct Real.sqrt Real.pi 2 1 (-(Real.pi / 15)) 0)).2).1 = 0 ∧
    (update (5 : ℝ) (1 / 60)
      (update 6 (1 / 60) (construct Real.sqrt Real.pi 2 1 (-(Real.pi / 15)) 0)).2).1 = 0 ∧
    (update (5 : ℝ) (1 / 60)
      (update 1000 (1 / 60) (construct Real.sqrt Real.pi 2 1 (-(Real.pi / 15)) 0)).2).1 = 0 := by
  obtain ⟨_, h2, h3⟩ := construct_f2_coeffs (-(Real.pi / 15)) 0
  have hpi : Real.pi ≠ 0 := ne_of_gt Real.pi_pos
  have hk2 : (construct Real.sqrt Real.pi 2 1 (-(Real.pi / 15)) 0).m_k2 ≠ 0 := by
    rw [h2]
    positivity
  have hk3 : (1 / 60 : ℝ) + (construct Real.sqrt Real.pi 2 1 (-(Real.pi / 15)) 0).m_k3 = 0 := by
    rw [h3]
    field_simp
    ring
  have hout : ∀ t : ℝ, (update (5 : ℝ) (1 / 60)
      (update t (1 / 60) (construct Real.sqrt Real.pi 2 1 (-(Real.pi / 15)) 0)).2).1 = 0 := by
    intro t
    rw [second_output_fresh _ 0 t (1 / 60) 5 (1 / 60) rfl rfl rfl hk2 (by norm_num), hk3]
    simp
  exact ⟨by norm_num, hout 5, hout 6, hout 1000⟩

/-- Claim C18 (one-step lag), amended, over the reals: the value returned by
`update t dt` is `position + velocity * dt` of the state before the call and so
is the same for every target `t`; the first update on a freshly constructed
filter returns the initial position `p0` for every target and every `dt`.
For `f ≠ 0` and `dt ≠ 0` the output of the following call is
`p0 + (t - p0) * (dt + k3) * dt2 / k2`, and two different first targets
`t ≠ t'` give different following outputs exactly when
`(dt + k3) * dt2 ≠ 0`. -/
theorem one_step_lag (s : SecondOrderSystem ℝ) (f zeta r p0 t t' dt t2 dt2 : ℝ) :
    ((update t dt s).1 = s.m_position + s.m_velocity * dt ∧
     (update t dt s).1 = (update t' dt s).1) ∧
    (update t dt (construct Real.sqrt Real.pi f zeta r p0)).1 = p0 ∧
    (f ≠ 0 → dt ≠ 0 →
      (update t2 dt2 (update t dt (construct Real.sqrt Real.pi f zeta r p0)).2).1 =
        p0 + (t - p0) * (dt + (construct Real.sqrt Real.pi f zeta r p0).m_k3) * dt2
          / (construct Real.sqrt Real.pi f zeta r p0).m_k2) ∧
    (f ≠ 0 → dt ≠ 0 → t ≠ t' →
      ((update t2 dt2 (update t dt (construct Real.sqrt Real.pi f zeta r p0)).2).1 ≠
          (update t2 dt2 (update t' dt (construct Real.sqrt Real.pi f zeta r p0)).2).1 ↔
        (dt + (construct Real.sqrt Real.pi f zeta r p0).m_k3) * dt2 ≠ 0)) := by
  have hpi : Real.pi ≠ 0 := ne_of_gt Real.pi_pos
  have hk2 : f ≠ 0 → (construct Real.sqrt Real.pi f zeta r p0).m_k2 ≠ 0 := by
    intro hf
    show (1 : ℝ) / (2 * Real.pi * f) ^ 2 ≠ 0
    positivity
  have hform : ∀ u : ℝ, f ≠ 0 → dt ≠ 0 →
      (update t2 dt2 (update u dt (construct Real.sqrt Real.pi f zeta r p0)).2).1 =
        p0 + (u - p0) * (dt + (construct Real.sqrt Real.pi f zeta r p0).m_k3) * dt2
          / (construct Real.sqrt Real.pi f zeta r p0).m_k2 := by
    intro u hf hdt
    exact second_output_fresh _ p0 u dt t2 dt2 rfl rfl rfl (hk2 hf) hdt
  refine ⟨⟨rfl, rfl⟩, ?_, hform t, ?_⟩
  · show p0 + 0 * dt = p0
    ring
  · intro hf hdt hne
    rw [hform t hf hdt, hform t' hf hdt]
    have hk := hk2 hf
    have hsub : t - t' ≠ 0 := sub_ne_zero.mpr hne
    have hdiff : (p0 + (t - p0) * (dt + (construct Real.sqrt Real.pi f zeta r p0).m_k3) * dt2
          / (construct Real.sqrt Real.pi f zeta r p0).m_k2)
        - (p0 + (t' - p0) * (dt + (construct Real.sqrt Real.pi f zeta r p0).m_k3) * dt2
          / (construct Real.sqrt Real.pi f zeta r p0).m_k2) =
        (t - t') * ((dt + (construct Real.sqrt Real.pi f zeta r p0).m_k3) * dt2)
          / (construct Real.sqrt Real.pi f zeta r p0).m_k2 := by
      ring
    constructor
    · intro hout hzero
      apply hout
      have := hdiff
      rw [hzero, mul_zero, zero_div] at this
      linarith
    · intro hnz heq
      have h0 : (t - t') * ((dt + (construct Real.sqrt Real.pi f zeta r p0).m_k3) * dt2)
          / (construct Real.sqrt Real.pi f zeta r p0).m_k2 = 0 := by
        rw [← hdiff, heq, sub_self]
      rcases div_eq_zero_iff.mp h0 with h1 | h1
      · rcases mul_eq_zero.mp h1 with h2 | h2
        · exact hsub h2
        · exact hnz h2
      · exact hk h1

/-- Witness for the amended C18 over the reals: the filter built with
`(2, 1, 0)` at position `0`, time step `1 / 60`, first targets `5` and `6`;
here `k3 = 0`, so `(dt + k3) * dt2 ≠ 0` and the following outputs differ. -/
theorem one_step_lag_witness :
    (2 : ℝ) ≠ 0 ∧ (1 / 60 : ℝ) ≠ 0 ∧ (5 : ℝ) ≠ 6 ∧
    (update (5 : ℝ) (1 / 60) (construct Real.sqrt Real.pi 2 1 0 0)).1 = 0 ∧
    ((update (5 : ℝ) (1 / 60)
        (update 5 (1 / 60) (construct Real.sqrt Real.pi 2 1 0 0)).2).1 ≠
      (update (5 : ℝ) (1 / 60)
        (update 6 (1 / 60) (construct Real.sqrt Real.pi 2 1 0 0)).2).1 ↔
      ((1 / 60 : ℝ) + (construct Real.sqrt Real.pi 2 1 0 0).m_k3) * (1 / 60) ≠ 0) :=
  have h := one_step_lag (construct Real.sqrt Real.pi 2 1 0 0) 2 1 0 0 5 6 (1 / 60) 5 (1 / 60)
  ⟨by norm_num, by norm_num, by norm_num, h.2.1,
    h.2.2.2 (by norm_num) (by norm_num) (by norm_num)⟩

/-- Claim C19 (translation equivariance), over the reals: for every `f > 0`,
`zeta`, `r`, initial position `p0`, offset `c` and every sequence of
(target, deltaTime) pairs with positive time steps, the filter constructed at
`p0 + c` and stepped with the targets moved by `c` returns the positions of the
filter constructed at `p0` and stepped with the original targets, each moved by
`c`; after every number `k` of steps the velocities of the two filters are
equal and the positions differ by `c`. -/
theorem translation_equivariance (f zeta r p0 c : ℝ) (inputs : List (ℝ × ℝ)) (hf : 0 < f)
    (hdt : ∀ i ∈ inputs, 0 < i.2) :
    (simulate (inputs.map (fun i => (i.1 + c, i.2)))
        (construct Real.sqrt Real.pi f zeta r (p0 + c))).1 =
      (simulate inputs (construct Real.sqrt Real.pi f zeta r p0)).1.map (fun p => p + c) ∧
    ∀ k : ℕ,
      (simulate ((inputs.take k).map (fun i => (i.1 + c, i.2)))
          (construct Real.sqrt Real.pi f zeta r (p0 + c))).2.m_velocity =
        (simulate (inputs.take k) (construct Real.sqrt Real.pi f zeta r p0)).2.m_velocity ∧
      (simulate ((inputs.take k).map (fun i => (i.1 + c, i.2)))
          (construct Real.sqrt Real.pi f zeta r (p0 + c))).2.m_position =
        (simulate (inputs.take k) (construct Real.sqrt Real.pi f zeta r p0)).2.m_position + c := by
  constructor
  · rw [construct_translate, simulate_translate]
  · intro k
    rw [construct_translate, simulate_translate]
    exact ⟨rfl, rfl⟩

/-- Witness for C19 over the reals: `f = 2`, `zeta = 1`, `r = 1`, `p0 = 0`,
offset `3`, inputs `(5, 1 / 60)` then `(6, 1 / 30)`. -/
theorem translation_equivariance_witness :
    (0 : ℝ) < 2 ∧
    (simulate ([((5 : ℝ), (1 / 60 : ℝ)), (6, 1 / 30)].map (fun i => (i.1 + 3, i.2)))
        (construct Real.sqrt Real.pi 2 1 1 (0 + 3))).1 =
      (simulate [((5 : ℝ), (1 / 60 : ℝ)), (6, 1 / 30)]
        (construct Real.sqrt Real.pi 2 1 1 0)).1.map (fun p => p + 3) :=
  ⟨by norm_num,
    (translation_equivariance 2 1 1 0 3 [((5 : ℝ), (1 / 60 : ℝ)), (6, 1 / 30)] (by norm_num)
      (by
        intro i hi
        simp only [List.mem_cons, List.mem_singleton, List.not_mem_nil, or_false] at hi
        rcases hi with rfl | rfl <;> norm_num)).1⟩

/-! ## Stability limit -/

/-- Claim C17: `criticalTimeStep` is the stability limit of the step map.  On
a filter whose coefficients are those derived from `f > 0`, `zeta > 0`, with a
constant target (`targetPosition = previousTarget = T`), one `update T dt` acts
on the pair `(position - T, velocity)` as the linear map with rows `(1, dt)`
and `(-(dt / k2), 1 - dt ^ 2 / k2 - k1 * dt / k2)`, of determinant
`D = 1 - k1 * dt / k2` and trace `S = 2 - dt ^ 2 / k2 - k1 * dt / k2`; the Schur
conditions `D < 1` and `|S| < 1 + D` hold if and only if
`0 < dt < criticalTimeStep`, and so does the condition that every eigenvalue
(complex root of `z ^ 2 - S * z + D`) has modulus below `1`. -/
theorem critical_time_step_is_stability_limit (s : SecondOrderSystem ℝ) (T dt : ℝ)
    (hc : Consistent Real.sqrt Real.pi s) (hf : 0 < s.m_f) (hzeta : 0 < s.m_zeta)
    (hT : s.m_prev_input = T) :
    ((update T dt s).2.m_position - T = 1 * (s.m_position - T) + dt * s.m_velocity ∧
     (update T dt s).2.m_velocity =
       (-(dt / s.m_k2)) * (s.m_position - T)
         + (1 - dt ^ 2 / s.m_k2 - s.m_k1 * dt / s.m_k2) * s.m_velocity) ∧
    (1 * (1 - dt ^ 2 / s.m_k2 - s.m_k1 * dt / s.m_k2) - dt * (-(dt / s.m_k2)) =
       1 - s.m_k1 * dt / s.m_k2 ∧
     1 + (1 - dt ^ 2 / s.m_k2 - s.m_k1 * dt / s.m_k2) =
       2 - dt ^ 2 / s.m_k2 - s.m_k1 * dt / s.m_k2) ∧
    ((1 - s.m_k1 * dt / s.m_k2 < 1 ∧
      |2 - dt ^ 2 / s.m_k2 - s.m_k1 * dt / s.m_k2| < 1 + (1 - s.m_k1 * dt / s.m_k2)) ↔
      (0 < dt ∧ dt < s.m_T_crit)) ∧
    ((∀ z : ℂ, z ^ 2 - ((2 - dt ^ 2 / s.m_k2 - s.m_k1 * dt / s.m_k2 : ℝ) : ℂ) * z
        + ((1 - s.m_k1 * dt / s.m_k2 : ℝ) : ℂ) = 0 → Complex.abs z < 1) ↔
      (0 < dt ∧ dt < s.m_T_crit)) := by
  obtain ⟨hk2eq, hk1eq, _, htc⟩ := hc
  have hpi := Real.pi_pos
  have hk2 : 0 < s.m_k2 := by
    rw [hk2eq]
    positivity
  have hk1 : 0 < s.m_k1 := by
    rw [hk1eq]
    have := Real.sqrt_pos.mpr hk2
    positivity
  have hiff := schur_iff_lt_critical s.m_k1 s.m_k2 dt hk1 hk2
  rw [← htc] at hiff
  refine ⟨⟨?_, ?_⟩, ⟨by ring, by ring⟩, hiff, ?_⟩
  · show s.m_position + s.m_velocity * dt - T = 1 * (s.m_position - T) + dt * s.m_velocity
    ring
  · show s.m_velocity + (T + s.m_k3 * ((T - s.m_prev_input) / dt)
        - (s.m_position + s.m_velocity * dt) - s.m_k1 * s.m_velocity) / s.m_k2 * dt = _
    rw [hT]
    have hne : s.m_k2 ≠ 0 := ne_of_gt hk2
    field_simp
    ring
  · rw [← hiff]
    constructor
    · intro h
      exact schur_of_roots_inside _ _ h
    · rintro ⟨hD, hS⟩ z hz
      exact roots_inside_of_schur _ _ hD hS z hz

/-- Witness for C17 over the reals: the filter built with `f = 2`, `zeta = 1`,
`r = 0` at position `5`, constant target `5`, `dt = 1 / 60`. -/
theorem critical_time_step_is_stability_limit_witness :
    Consistent Real.sqrt Real.pi (construct Real.sqrt Real.pi 2 1 0 5) ∧
    (0 : ℝ) < (construct Real.sqrt Real.pi 2 1 0 5).m_f ∧
    (0 : ℝ) < (construct Real.sqrt Real.pi 2 1 0 5).m_zeta ∧
    (construct Real.sqrt Real.pi 2 1 0 5).m_prev_input = 5 ∧
    ((1 - (construct Real.sqrt Real.pi 2 1 0 5).m_k1 * (1 / 60)
          / (construct Real.sqrt Real.pi 2 1 0 5).m_k2 < 1 ∧
      |2 - (1 / 60) ^ 2 / (construct Real.sqrt Real.pi 2 1 0 5).m_k2
          - (construct Real.sqrt Real.pi 2 1 0 5).m_k1 * (1 / 60)
            / (construct Real.sqrt Real.pi 2 1 0 5).m_k2| <
        1 + (1 - (construct Real.sqrt Real.pi 2 1 0 5).m_k1 * (1 / 60)
          / (construct Real.sqrt Real.pi 2 1 0 5).m_k2)) ↔
      ((0 : ℝ) < 1 / 60 ∧ 1 / 60 < (construct Real.sqrt Real.pi 2 1 0 5).m_T_crit)) :=
  have hcons : Consistent Real.sqrt Real.pi (construct Real.sqrt Real.pi 2 1 0 5) :=
    consistent_recalculateCoefficients Real.sqrt Real.pi _
  have hf : (0 : ℝ) < (construct Real.sqrt Real.pi 2 1 0 5).m_f :=
    show (0 : ℝ) < 2 by norm_num
  have hz : (0 : ℝ) < (construct Real.sqrt Real.pi 2 1 0 5).m_zeta :=
    show (0 : ℝ) < 1 by norm_num
  ⟨hcons, hf, hz, rfl,
    (critical_time_step_is_stability_limit (construct Real.sqrt Real.pi 2 1 0 5) 5 (1 / 60)
      hcons hf hz rfl).2.2.1⟩

/-! ## Response factor and overshoot -/

end SecondOrderSystem
